import Mathlib

/-!
Verification of the `abc-macros` crate: the `enum_ranges!` procedural
DSL compiler (`src/abc-macros/src/enum_ranges.rs`) and the
`DescribeStruct` derive helper (`src/abc-macros/src/lib.rs`).

The macro input token stream is shallowly embedded as `List Tok`
(proc-macro token trees: braced and bracketed groups are single tokens
holding their content). Every syn-style parser is embedded as a function
`List Tok → Except PErr A × List Tok`: the `ParseStream` of syn advances its
cursor exactly as far as the successful sub-parses reached, even when
the whole parse fails, so a parser returns the remaining tokens in both
the success and the failure case. Atomic token parses consume nothing on
failure, matching the step-based token parsing of syn.

The generated code is embedded structurally: `GenOutput` mirrors the
pieces interpolated by `quote!` in `RangedEnum::to_tokens`, and the
conditional chain of the generated `TryFrom<u64>` impl is a `List
ChainTok` whose Rust-syntax validity and evaluation are defined
separately (`validIfChain`, `evalChain`).
-/

/-- One proc-macro token (tree) of the `enum_ranges!` input language. -/
inductive Tok where
  | ident (s : String)
  | colon
  | comma
  | dotdot
  | intLit (v : Nat)
  | pound
  | bracketGroup (content : List Tok)
  | braceGroup (content : List Tok)

/-- A parse error. syn reports all of these as spanned syntax errors;
the claims never distinguish error payloads, so one constructor. -/
inductive PErr where
  | synErr
deriving DecidableEq

/-- `input.parse::<Ident>()`: consume one identifier token. -/
def parseIdentTok : List Tok → Except PErr String × List Tok
  | Tok.ident s :: rest => (Except.ok s, rest)
  | toks => (Except.error PErr.synErr, toks)

/-- `input.parse::<Token![:]>()`: consume one colon token. -/
def parseColonTok : List Tok → Except PErr Unit × List Tok
  | Tok.colon :: rest => (Except.ok (), rest)
  | toks => (Except.error PErr.synErr, toks)

/-- `input.parse::<LitInt>()`: consume one integer-literal token,
returning its (unbounded) base-10 value. -/
def parseLitIntTok : List Tok → Except PErr Nat × List Tok
  | Tok.intLit v :: rest => (Except.ok v, rest)
  | toks => (Except.error PErr.synErr, toks)

/-- `LitInt::base10_parse::<u64>()`: succeeds exactly when the literal
value is representable as a `u64`; an out-of-range literal is an error,
never wrapped or truncated. Operates on the already-consumed literal, so
it does not touch the token stream. -/
def base10ParseU64 (v : Nat) : Except PErr Nat :=
  if v < 2 ^ 64 then Except.ok v else Except.error PErr.synErr

/-- The structured model of a single variant range (`NamedRange` in
`enum_ranges.rs`): `Foo: 1..10` or `Bar: 11`. The Rust field `end` is a
Lean keyword, hence `end?`. -/
structure NamedRange where
  name : String
  start : Nat
  end? : Option Nat

/-- `<NamedRange as Parse>::parse`: an identifier, a colon, an integer
literal, and optionally dots with a second integer literal.
The `..` is parsed with `.ok()` (optional, consuming nothing when
absent); once it is seen, the second literal is mandatory. -/
def NamedRange.parse (toks : List Tok) : Except PErr NamedRange × List Tok :=
  match parseIdentTok toks with
  | (Except.error e, r) => (Except.error e, r)
  | (Except.ok name, r1) =>
    match parseColonTok r1 with
    | (Except.error e, r) => (Except.error e, r)
    | (Except.ok _, r2) =>
      match parseLitIntTok r2 with
      | (Except.error e, r) => (Except.error e, r)
      | (Except.ok startLit, r3) =>
        match base10ParseU64 startLit with
        | Except.error e => (Except.error e, r3)
        | Except.ok start =>
          match r3 with
          | Tok.dotdot :: r4 =>
            match parseLitIntTok r4 with
            | (Except.error e, r) => (Except.error e, r)
            | (Except.ok endLit, r5) =>
              match base10ParseU64 endLit with
              | Except.error e => (Except.error e, r5)
              | Except.ok endVal =>
                (Except.ok { name := name, start := start, end? := some endVal }, r5)
          | _ => (Except.ok { name := name, start := start, end? := none }, r3)

/-- The loop of `Punctuated::<NamedRange, Token![,]>::parse_terminated`:
while input is nonempty, parse an element; stop if the input is then
empty; otherwise parse a separating comma and continue. The fuel
argument makes the recursion structural; the wrapper passes more fuel
than the loop can consume. -/
def parseTerminatedRanges (fuel : Nat) (toks : List Tok) :
    Except PErr (List NamedRange) × List Tok :=
  match fuel with
  | 0 => (Except.error PErr.synErr, toks)
  | fuel' + 1 =>
    match toks with
    | [] => (Except.ok [], toks)
    | _ =>
      match NamedRange.parse toks with
      | (Except.error e, r) => (Except.error e, r)
      | (Except.ok v, r1) =>
        match r1 with
        | [] => (Except.ok [v], r1)
        | Tok.comma :: r2 =>
          match parseTerminatedRanges fuel' r2 with
          | (Except.error e, r) => (Except.error e, r)
          | (Except.ok vs, r3) => (Except.ok (v :: vs), r3)
        | _ => (Except.error PErr.synErr, r1)

/-- The structured model of the variant list (`NamedRangeList`). -/
structure NamedRangeList where
  list : List NamedRange

/-- `<NamedRangeList as Parse>::parse`: `parse_terminated`, punctuation
discarded, elements collected in source order. Each loop iteration
consumes at least one token, so `toks.length + 1` fuel never runs out. -/
def NamedRangeList.parse (toks : List Tok) : Except PErr NamedRangeList × List Tok :=
  match parseTerminatedRanges (toks.length + 1) toks with
  | (Except.error e, r) => (Except.error e, r)
  | (Except.ok l, r) => (Except.ok { list := l }, r)

/-- `syn::Attribute::parse_outer`: while the next token is `#`, consume
it and then demand a bracketed group (the attribute body, kept
verbatim). A `#` not followed by `[...]` is an error, with the `#`
already consumed off the cursor. -/
def attrParseOuter : List Tok → Except PErr (List (List Tok)) × List Tok
  | Tok.pound :: rest =>
    match rest with
    | Tok.bracketGroup content :: rest2 =>
      match attrParseOuter rest2 with
      | (Except.ok attrs, r) => (Except.ok (content :: attrs), r)
      | (Except.error e, r) => (Except.error e, r)
    | other => (Except.error PErr.synErr, other)
  | toks => (Except.ok [], toks)

/-- The structured model of the whole macro input (`RangedEnum`):
captured attributes, the enum name, and the variant list. -/
structure RangedEnum where
  attributes : List (List Tok)
  name : String
  variants : NamedRangeList

/-- The part of `<RangedEnum as Parse>::parse` after the attribute
parse: the enum name, then a braced group whose content is parsed as
the variant list. -/
def RangedEnum.parseAfterAttrs (attributes : List (List Tok)) (toks : List Tok) :
    Except PErr RangedEnum × List Tok :=
  match parseIdentTok toks with
  | (Except.error e, r) => (Except.error e, r)
  | (Except.ok name, r1) =>
    match r1 with
    | Tok.braceGroup content :: r2 =>
      match NamedRangeList.parse content with
      | (Except.error e, _) => (Except.error e, r2)
      | (Except.ok variants, _) =>
        (Except.ok { attributes := attributes, name := name, variants := variants }, r2)
    | _ => (Except.error PErr.synErr, r1)

/-- `<RangedEnum as Parse>::parse`: first
`syn::Attribute::parse_outer(input).unwrap_or(vec![])` — an attribute
parse failure is discarded and replaced by the empty attribute list,
with the cursor left where the failed parse stopped — then the name and
braced variant list. -/
def RangedEnum.parse (toks : List Tok) : Except PErr RangedEnum × List Tok :=
  match attrParseOuter toks with
  | (Except.ok attributes, r) => RangedEnum.parseAfterAttrs attributes r
  | (Except.error _, r) => RangedEnum.parseAfterAttrs [] r

/-- The test expression of one generated `if` clause: `x == start` when
the range has no end, `(start .. end).contains(&x)` when it does. -/
inductive RTest where
  | eq (start : Nat)
  | halfOpen (start stop : Nat)

/-- The test `RangedEnum::to_tokens` generates for a range. -/
def testOf (r : NamedRange) : RTest :=
  match r.end? with
  | none => RTest.eq r.start
  | some e => RTest.halfOpen r.start e

/-- Run-time meaning of a generated test on a `u64` value `x`:
`x == start`, or `Range::contains`, i.e. `start ≤ x && x < end`. -/
def evalTest (t : RTest) (x : Nat) : Bool :=
  match t with
  | RTest.eq s => x == s
  | RTest.halfOpen s e => decide (s ≤ x) && decide (x < e)

/-- One token of the generated conditional chain, at the granularity
`to_tokens` splices them: `if` / `else` keywords, a condition, the
`Ok(Name::Variant)` success block, the final `Err(x)` block. -/
inductive ChainTok where
  | ifKw
  | elseKw
  | cond (t : RTest)
  | okBlock (variant : String)
  | errBlock

/-- The tokens generated for the branch of one variant: an `else` keyword
for every branch except the first (`n == 0`), then
`if <test> { Ok(Name::Variant) }`. -/
def branchToks (hasElse : Bool) (r : NamedRange) : List ChainTok :=
  (if hasElse then [ChainTok.elseKw] else []) ++
    [ChainTok.ifKw, ChainTok.cond (testOf r), ChainTok.okBlock r.name]

/-- The concatenation of all generated branches, mirroring the
`enumerate`-driven `branches` vector in `to_tokens`. -/
def branchesToks (l : List NamedRange) : List ChainTok :=
  (l.enum.map (fun p => branchToks (p.1 != 0) p.2)).flatten

/-- The whole body of the generated `try_from`: every branch, then the
unconditional trailing `else { Err(x) }`. -/
def bodyToks (l : List NamedRange) : List ChainTok :=
  branchesToks l ++ [ChainTok.elseKw, ChainTok.errBlock]

/-- Structured model of the `TokenStream` emitted by
`RangedEnum::to_tokens`: the attributes re-emitted verbatim above the
enum, the enum name, the variant list (`#name ,` per range, in order),
and the conditional chain forming the `try_from` body. -/
structure GenOutput where
  attrsOut : List (List Tok)
  enumName : String
  enumVariants : List String
  convChain : List ChainTok

/-- `<RangedEnum as ToTokens>::to_tokens`. -/
def RangedEnum.to_tokens (re : RangedEnum) : GenOutput :=
  { attrsOut := re.attributes
  , enumName := re.name
  , enumVariants := re.variants.list.map (fun nr => nr.name)
  , convChain := bodyToks re.variants.list }

/-- Rust-syntax validity of the continuation of an if-chain: either
nothing, or a final `else { Err(x) }` block, or `else if <cond>
{ Ok(..) }` followed by a valid continuation. -/
def validElseChain : List ChainTok → Bool
  | [] => true
  | [ChainTok.elseKw, ChainTok.errBlock] => true
  | ChainTok.elseKw :: ChainTok.ifKw :: ChainTok.cond _ :: ChainTok.okBlock _ :: rest =>
    validElseChain rest
  | _ => false

/-- Rust-syntax validity of a whole conditional chain: it must open
with `if <cond> { Ok(..) }`; in particular a chain that opens with a
bare `else` block is a Rust syntax error. -/
def validIfChain : List ChainTok → Bool
  | ChainTok.ifKw :: ChainTok.cond _ :: ChainTok.okBlock _ :: rest => validElseChain rest
  | _ => false

/-- Run-time evaluation of the continuation of an if-chain at input
`x`: `none` when the chain shape is not evaluable Rust. -/
def evalElseChain (x : Nat) : List ChainTok → Option (Except Nat String)
  | [ChainTok.elseKw, ChainTok.errBlock] => some (Except.error x)
  | ChainTok.elseKw :: ChainTok.ifKw :: ChainTok.cond t :: ChainTok.okBlock v :: rest =>
    if evalTest t x then some (Except.ok v) else evalElseChain x rest
  | _ => none

/-- Run-time evaluation of the generated `try_from` body at input `x`:
the value is the variant name of the first clause whose test holds,
`Err(x)` from the trailing else, or `none` when the chain is not a
syntactically evaluable Rust expression. -/
def evalChain (x : Nat) : List ChainTok → Option (Except Nat String)
  | ChainTok.ifKw :: ChainTok.cond t :: ChainTok.okBlock v :: rest =>
    if evalTest t x then some (Except.ok v) else evalElseChain x rest
  | _ => none

/-- Spec-side definition (from §4.4 / §6 of the design): the conversion
returns the variant of the first range, in declared order, whose test
succeeds, and otherwise the original input as the error value. -/
def firstMatch (l : List NamedRange) (x : Nat) : Except Nat String :=
  match l.find? (fun r => evalTest (testOf r) x) with
  | some r => Except.ok r.name
  | none => Except.error x

/-- A range whose literals passed `base10_parse::<u64>`. -/
def NamedRange.valid (r : NamedRange) : Bool :=
  decide (r.start < 2 ^ 64) &&
    (match r.end? with
     | none => true
     | some e => decide (e < 2 ^ 64))

/-- All ranges of a list are `u64`-valid. -/
def validRanges (l : List NamedRange) : Bool :=
  l.all NamedRange.valid

/-- Concrete-syntax rendering of one range: `Name : start` or
`Name : start .. end`. -/
def renderRange (r : NamedRange) : List Tok :=
  [Tok.ident r.name, Tok.colon, Tok.intLit r.start] ++
    (match r.end? with
     | none => []
     | some e => [Tok.dotdot, Tok.intLit e])

/-- Concrete-syntax rendering of a range list: ranges joined by single
commas, no trailing comma. -/
def renderList : List NamedRange → List Tok
  | [] => []
  | [r] => renderRange r
  | r :: rs => renderRange r ++ Tok.comma :: renderList rs

/-- Concrete-syntax rendering of a whole macro invocation: `#[...]`
attribute pairs, the enum name, the braced range list. -/
def renderDecl (attrs : List (List Tok)) (name : String) (l : List NamedRange) : List Tok :=
  (attrs.map (fun a => [Tok.pound, Tok.bracketGroup a])).flatten ++
    [Tok.ident name, Tok.braceGroup (renderList l)]

/-- Model of the `impl DescribeStruct` block emitted by the derive:
the type the impl is for, and the string constant `struct_name`
returns. -/
structure GenImpl where
  targetName : String
  struct_name : String

/-- `derive_describe_struct` from `src/abc-macros/src/lib.rs`: a
`compile_error!` when the name of the type is `OhNo`, otherwise an impl
whose `struct_name` returns exactly that name. -/
def derive_describe_struct (name : String) : Except String GenImpl :=
  if name == "OhNo" then Except.error "That name is not allowed"
  else Except.ok { targetName := name, struct_name := name }

/-! Helper lemmas -/

theorem enumFrom_branchToks (rs : List NamedRange) :
    ∀ k : Nat,
      ((List.enumFrom (k + 1) rs).map (fun p => branchToks (p.1 != 0) p.2)).flatten =
        (rs.map (branchToks true)).flatten := by
  induction rs with
  | nil => intro k; rfl
  | cons r rs ih =>
    intro k
    have hk : ((k + 1 : Nat) != 0) = true := by simp
    simp only [List.enumFrom, List.map_cons, List.flatten_cons, hk]
    rw [ih (k + 1)]

theorem branchesToks_cons (r : NamedRange) (rs : List NamedRange) :
    branchesToks (r :: rs) =
      branchToks false r ++ (rs.map (branchToks true)).flatten := by
  have h0 : ((0 : Nat) != 0) = false := by simp
  simp only [branchesToks, List.enum, List.enumFrom, List.map_cons, List.flatten_cons, h0]
  rw [enumFrom_branchToks rs 0]

theorem evalElseChain_branches (x : Nat) (rs : List NamedRange) :
    evalElseChain x ((rs.map (branchToks true)).flatten ++ [ChainTok.elseKw, ChainTok.errBlock]) =
      some (firstMatch rs x) := by
  induction rs with
  | nil => rfl
  | cons r rs ih =>
    simp only [List.map_cons, List.flatten_cons, branchToks, if_pos, List.append_assoc,
      List.cons_append, List.nil_append]
    show evalElseChain x (ChainTok.elseKw :: ChainTok.ifKw :: ChainTok.cond (testOf r) ::
      ChainTok.okBlock r.name :: _) = _
    rw [evalElseChain]
    cases h : evalTest (testOf r) x with
    | true => simp [firstMatch, List.find?_cons, h]
    | false => simp [firstMatch, List.find?_cons, h, ih]

theorem validElseChain_branches (rs : List NamedRange) :
    validElseChain ((rs.map (branchToks true)).flatten ++ [ChainTok.elseKw, ChainTok.errBlock]) =
      true := by
  induction rs with
  | nil => rfl
  | cons r rs ih =>
    simp only [List.map_cons, List.flatten_cons, branchToks, if_pos, List.append_assoc,
      List.cons_append, List.nil_append]
    show validElseChain (ChainTok.elseKw :: ChainTok.ifKw :: ChainTok.cond (testOf r) ::
      ChainTok.okBlock r.name :: _) = _
    rw [validElseChain]
    exact ih

theorem NamedRange.parse_renderRange (r : NamedRange) (hv : r.valid = true) (tail : List Tok)
    (ht : tail = [] ∨ ∃ rest, tail = Tok.comma :: rest) :
    NamedRange.parse (renderRange r ++ tail) = (Except.ok r, tail) := by
  obtain ⟨name, start, end?⟩ := r
  cases end? with
  | none =>
    simp only [NamedRange.valid, Bool.and_eq_true, decide_eq_true_eq] at hv
    rcases ht with h | ⟨rest, h⟩ <;> subst h
    · simp only [renderRange, NamedRange.parse, parseIdentTok, parseColonTok, parseLitIntTok,
        base10ParseU64, List.cons_append, List.nil_append, List.append_nil]
      rw [if_pos (by omega)]
    · simp only [renderRange, NamedRange.parse, parseIdentTok, parseColonTok, parseLitIntTok,
        base10ParseU64, List.cons_append, List.nil_append]
      rw [if_pos (by omega)]
  | some e =>
    simp only [NamedRange.valid, Bool.and_eq_true, decide_eq_true_eq] at hv
    simp only [renderRange, NamedRange.parse, parseIdentTok, parseColonTok, parseLitIntTok,
      base10ParseU64, List.cons_append, List.nil_append]
    rw [if_pos (by omega), if_pos (by omega)]

theorem parseTerminatedRanges_render (l : List NamedRange) :
    ∀ fuel : Nat, l ≠ [] → validRanges l = true → l.length < fuel →
      parseTerminatedRanges fuel (renderList l) = (Except.ok l, []) := by
  induction l with
  | nil => intro fuel h; exact absurd rfl h
  | cons r rs ih =>
    intro fuel _ hv hf
    obtain ⟨fuel', rfl⟩ : ∃ k, fuel = k + 1 := ⟨fuel - 1, by omega⟩
    simp only [validRanges, List.all_cons, Bool.and_eq_true] at hv
    have hr : ∃ a b, renderRange r = Tok.ident a :: b := by
      obtain ⟨n, s, e⟩ := r; exact ⟨n, _, rfl⟩
    obtain ⟨a, b, hab⟩ := hr
    cases rs with
    | nil =>
      have hp := NamedRange.parse_renderRange r hv.1 [] (Or.inl rfl)
      rw [List.append_nil] at hp
      simp only [renderList]
      rw [parseTerminatedRanges, hab, ← hab, hp]
      simp [hab]
    | cons r' rs' =>
      have hp := NamedRange.parse_renderRange r hv.1 (Tok.comma :: renderList (r' :: rs'))
        (Or.inr ⟨_, rfl⟩)
      have hrec := ih fuel' (by simp) (by simp [validRanges, hv.2]) (by
        simp only [List.length_cons] at hf ⊢; omega)
      show parseTerminatedRanges (fuel' + 1)
        (renderRange r ++ Tok.comma :: renderList (r' :: rs')) = _
      rw [parseTerminatedRanges, hab, List.cons_append, ← List.cons_append, ← hab, hp]
      · simp [hrec]
      · simp [hab]

theorem parseTerminatedRanges_render_comma (l : List NamedRange) :
    ∀ fuel : Nat, l ≠ [] → validRanges l = true → l.length + 1 < fuel →
      parseTerminatedRanges fuel (renderList l ++ [Tok.comma]) = (Except.ok l, []) := by
  induction l with
  | nil => intro fuel h; exact absurd rfl h
  | cons r rs ih =>
    intro fuel _ hv hf
    obtain ⟨fuel', rfl⟩ : ∃ k, fuel = k + 1 := ⟨fuel - 1, by omega⟩
    simp only [validRanges, List.all_cons, Bool.and_eq_true] at hv
    have hr : ∃ a b, renderRange r = Tok.ident a :: b := by
      obtain ⟨n, s, e⟩ := r; exact ⟨n, _, rfl⟩
    obtain ⟨a, b, hab⟩ := hr
    cases rs with
    | nil =>
      have hp := NamedRange.parse_renderRange r hv.1 [Tok.comma] (Or.inr ⟨_, rfl⟩)
      obtain ⟨fuel'', rfl⟩ : ∃ k, fuel' = k + 1 := ⟨fuel' - 1, by
        simp only [List.length_cons] at hf; omega⟩
      simp only [renderList]
      rw [parseTerminatedRanges, hab, ← hab, hp]
      · simp [parseTerminatedRanges]
      · simp [hab]
    | cons r' rs' =>
      have hp := NamedRange.parse_renderRange r hv.1
        (Tok.comma :: (renderList (r' :: rs') ++ [Tok.comma])) (Or.inr ⟨_, rfl⟩)
      have hrec := ih fuel' (by simp) (by simp [validRanges, hv.2]) (by
        simp only [List.length_cons] at hf ⊢; omega)
      have hshape : renderList (r :: r' :: rs') ++ [Tok.comma] =
          renderRange r ++ Tok.comma :: (renderList (r' :: rs') ++ [Tok.comma]) := by
        simp [renderList]
      rw [hshape]
      rw [parseTerminatedRanges, hab, List.cons_append, ← List.cons_append, ← hab, hp]
      · simp [hrec]
      · simp [hab]

theorem renderList_length (l : List NamedRange) : l.length ≤ (renderList l).length := by
  induction l with
  | nil => simp [renderList]
  | cons r rs ih =>
    have h3 : 3 ≤ (renderRange r).length := by
      obtain ⟨n, s, e⟩ := r
      cases e <;> simp [renderRange]
    cases rs with
    | nil => simpa [renderList] using by omega
    | cons r' rs' =>
      simp only [renderList, List.length_append, List.length_cons] at ih ⊢
      omega

theorem NamedRangeList.parse_renderList (l : List NamedRange) (hv : validRanges l = true) :
    NamedRangeList.parse (renderList l) = (Except.ok { list := l }, []) := by
  cases l with
  | nil => rfl
  | cons r rs =>
    have hlen := renderList_length (r :: rs)
    rw [NamedRangeList.parse, parseTerminatedRanges_render (r :: rs) _ (by simp) hv (by omega)]

theorem NamedRangeList.parse_renderList_comma (l : List NamedRange) (hne : l ≠ [])
    (hv : validRanges l = true) :
    NamedRangeList.parse (renderList l ++ [Tok.comma]) = (Except.ok { list := l }, []) := by
  have hlen := renderList_length l
  rw [NamedRangeList.parse, parseTerminatedRanges_render_comma l _ hne hv (by
    simp only [List.length_append, List.length_cons, List.length_nil]; omega)]

theorem attrParseOuter_render (attrs : List (List Tok)) (s : String) (rest : List Tok) :
    attrParseOuter
        ((attrs.map (fun a => [Tok.pound, Tok.bracketGroup a])).flatten ++ Tok.ident s :: rest) =
      (Except.ok attrs, Tok.ident s :: rest) := by
  induction attrs with
  | nil => rfl
  | cons a as ih =>
    simp only [List.map_cons, List.flatten_cons, List.cons_append, List.nil_append]
    rw [attrParseOuter]
    simp only [ih]

/-! Claims: one theorem per claim, with witnesses and counterexamples. -/

/-- Claim C1 (amended: the declaration must contain at least one range;
see `c1_zero_ranges_counterexample`). For every declaration with at
least one range and every unsigned integer `x`, evaluating the
generated conditional chain returns the variant of the first range, in
declared order, whose test succeeds — equality with `start` when `end`
is absent, half-open membership `start ≤ x < end` when it is present —
and returns the original input `x` as the error value when the test of every range
fails (first-match-wins on overlap). -/
theorem c1_first_match_wins (l : List NamedRange) (hne : l ≠ []) (x : Nat) :
    evalChain x (bodyToks l) = some (firstMatch l x) := by
  cases l with
  | nil => exact absurd rfl hne
  | cons r rs =>
    rw [bodyToks, branchesToks_cons]
    show evalChain x (ChainTok.ifKw :: ChainTok.cond (testOf r) :: ChainTok.okBlock r.name ::
      ((rs.map (branchToks true)).flatten ++ [ChainTok.elseKw, ChainTok.errBlock])) = _
    rw [evalChain]
    cases h : evalTest (testOf r) x with
    | true => simp [firstMatch, List.find?_cons, h]
    | false => simp [firstMatch, List.find?_cons, h, evalElseChain_branches x rs]

/-- Claim C1, counterexample to the unamended claim: for the
zero-range declaration the emitted `try_from` body is the bare
`else { Err(x) }`, which is not an evaluable conditional chain, so at
input 5 the generated conversion does not return `Err(5)` (the macro
output is not even valid Rust). -/
theorem c1_zero_ranges_counterexample :
    ¬ (evalChain 5 (bodyToks []) = some (Except.error 5)) := by
  intro h
  exact Option.noConfusion h

/-- Claim C1 witness: the three-range `Color` example of the crate
documentation, evaluated at 495, picks `Green` (the first matching
range in declared order). -/
theorem c1_first_match_wins_witness :
    evalChain 495 (bodyToks [{ name := "Blue", start := 450, end? := some 495 },
        { name := "Green", start := 495, end? := some 570 },
        { name := "Yellow", start := 570, end? := some 590 }]) =
      some (firstMatch [{ name := "Blue", start := 450, end? := some 495 },
        { name := "Green", start := 495, end? := some 570 },
        { name := "Yellow", start := 570, end? := some 590 }] 495) :=
  c1_first_match_wins _ (List.cons_ne_nil _ _) 495

/-- Claim C2 (amended: well-formedness holds for every list length
of at least one; see `c2_zero_tokens_counterexample` — the zero-token
case emits a bare `else` block, which is not syntactically well-formed
Rust, so the zero-token declaration yields a compile error rather than
an always-failing function). The generated chain is syntactically
well-formed for every nonempty list, and in the single-token case the
chain has no leading `else` continuation keyword. -/
theorem c2_chain_well_formed :
    (∀ l : List NamedRange, l ≠ [] → validIfChain (bodyToks l) = true) ∧
      (∀ r : NamedRange, bodyToks [r] =
        [ChainTok.ifKw, ChainTok.cond (testOf r), ChainTok.okBlock r.name,
          ChainTok.elseKw, ChainTok.errBlock]) := by
  constructor
  · intro l hne
    cases l with
    | nil => exact absurd rfl hne
    | cons r rs =>
      rw [bodyToks, branchesToks_cons]
      show validIfChain (ChainTok.ifKw :: ChainTok.cond (testOf r) :: ChainTok.okBlock r.name ::
        ((rs.map (branchToks true)).flatten ++ [ChainTok.elseKw, ChainTok.errBlock])) = true
      rw [validIfChain]
      exact validElseChain_branches rs
  · intro r
    rfl

/-- Claim C2, counterexample to the unamended claim: the chain
generated for the zero-token list is `else { Err(x) }` with no leading
`if`, which is not syntactically well-formed. -/
theorem c2_zero_tokens_counterexample : validIfChain (bodyToks []) = false := rfl

/-- Claim C2 witness: concrete instances of both conjuncts. -/
theorem c2_chain_well_formed_witness :
    validIfChain (bodyToks [{ name := "A", start := 1, end? := none },
        { name := "B", start := 2, end? := some 5 }]) = true ∧
      bodyToks [{ name := "A", start := 1, end? := none }] =
        [ChainTok.ifKw, ChainTok.cond (testOf { name := "A", start := 1, end? := none }),
          ChainTok.okBlock "A", ChainTok.elseKw, ChainTok.errBlock] :=
  ⟨c2_chain_well_formed.1 _ (List.cons_ne_nil _ _), c2_chain_well_formed.2 _⟩

/-- Claim C3: a range token whose `end` is not greater than `start`
is parsed successfully — no relative-order validation — and the clause
generated for it carries an always-false test: `(start .. end)` with
`end ≤ start` contains no input. -/
theorem c3_reversed_range_always_false (name : String) (K M x : Nat)
    (hord : M ≤ K) (hK : K < 2 ^ 64) :
    NamedRange.parse [Tok.ident name, Tok.colon, Tok.intLit K, Tok.dotdot, Tok.intLit M] =
      (Except.ok { name := name, start := K, end? := some M }, []) ∧
    evalTest (testOf { name := name, start := K, end? := some M }) x = false := by
  constructor
  · simp only [NamedRange.parse, parseIdentTok, parseColonTok, parseLitIntTok, base10ParseU64]
    rw [if_pos (by omega), if_pos (by omega)]
  · simp only [testOf, evalTest]
    have : ¬ (K ≤ x ∧ x < M) := by omega
    simpa [Decidable.not_and_iff_or_not] using by omega

/-- Claim C3 witness: `Bad: 10..5` parses, and its test rejects 7. -/
theorem c3_reversed_range_always_false_witness :
    NamedRange.parse [Tok.ident "Bad", Tok.colon, Tok.intLit 10, Tok.dotdot, Tok.intLit 5] =
      (Except.ok { name := "Bad", start := 10, end? := some 5 }, []) ∧
    evalTest (testOf { name := "Bad", start := 10, end? := some 5 }) 7 = false :=
  c3_reversed_range_always_false "Bad" 10 5 7 (by omega) (by omega)

/-- Claim C4: a valid single token `Name: K` parses to
`{name, start := K, end := none}`, and a valid range token
`Name: K..M` parses to `{name, start := K, end := some M}` (valid:
both literals fit in a `u64`). -/
theorem c4_range_token_parse (name : String) (K M : Nat)
    (hK : K < 2 ^ 64) (hM : M < 2 ^ 64) :
    NamedRange.parse [Tok.ident name, Tok.colon, Tok.intLit K] =
      (Except.ok { name := name, start := K, end? := none }, []) ∧
    NamedRange.parse [Tok.ident name, Tok.colon, Tok.intLit K, Tok.dotdot, Tok.intLit M] =
      (Except.ok { name := name, start := K, end? := some M }, []) := by
  constructor
  · simp only [NamedRange.parse, parseIdentTok, parseColonTok, parseLitIntTok, base10ParseU64]
    rw [if_pos (by omega)]
  · simp only [NamedRange.parse, parseIdentTok, parseColonTok, parseLitIntTok, base10ParseU64]
    rw [if_pos (by omega), if_pos (by omega)]

/-- Claim C4 witness: the test inputs used by the crate, `Foo: 7` and
`Foo: 1..10`. -/
theorem c4_range_token_parse_witness :
    NamedRange.parse [Tok.ident "Foo", Tok.colon, Tok.intLit 7] =
      (Except.ok { name := "Foo", start := 7, end? := none }, []) ∧
    NamedRange.parse [Tok.ident "Foo", Tok.colon, Tok.intLit 7, Tok.dotdot, Tok.intLit 10] =
      (Except.ok { name := "Foo", start := 7, end? := some 10 }, []) :=
  c4_range_token_parse "Foo" 7 10 (by omega) (by omega)

/-- Claim C5: once `..` is seen the rest of the range is mandatory: a
dangling `Name: K..` is a syntax error, and so is `..` followed by any
non-integer token. -/
theorem c5_dots_mandate_end (name : String) (K : Nat) (t : Tok) (rest : List Tok)
    (hK : K < 2 ^ 64) (ht : ∀ m, t ≠ Tok.intLit m) :
    (NamedRange.parse [Tok.ident name, Tok.colon, Tok.intLit K, Tok.dotdot]).1 =
      Except.error PErr.synErr ∧
    (NamedRange.parse
        (Tok.ident name :: Tok.colon :: Tok.intLit K :: Tok.dotdot :: t :: rest)).1 =
      Except.error PErr.synErr := by
  constructor
  · simp only [NamedRange.parse, parseIdentTok, parseColonTok, parseLitIntTok, base10ParseU64]
    rw [if_pos (by omega)]
  · cases t
    case intLit m => exact absurd rfl (ht m)
    all_goals
      simp only [NamedRange.parse, parseIdentTok, parseColonTok, parseLitIntTok, base10ParseU64]
    all_goals rw [if_pos (by omega)]

/-- Claim C5 witness: `Foo: 1..` and `Foo: 1.. ,` both fail. -/
theorem c5_dots_mandate_end_witness :
    (NamedRange.parse [Tok.ident "Foo", Tok.colon, Tok.intLit 1, Tok.dotdot]).1 =
      Except.error PErr.synErr ∧
    (NamedRange.parse
        (Tok.ident "Foo" :: Tok.colon :: Tok.intLit 1 :: Tok.dotdot :: Tok.comma :: [])).1 =
      Except.error PErr.synErr :=
  c5_dots_mandate_end "Foo" 1 Tok.comma [] (by omega) (fun m h => Tok.noConfusion h)

/-- Claim C6 (amended: the list must be nonempty; see
`c6_empty_list_counterexample` — for the empty list the rendered input
is empty, and appending a comma yields the sole token `,`, which
`parse_terminated` rejects). For every nonempty well-formed
comma-separated range list, appending one trailing comma yields the
same parse result, and parsing returns the ranges as an ordered
sequence preserving source order. -/
theorem c6_trailing_comma (l : List NamedRange) (hne : l ≠ []) (hv : validRanges l = true) :
    NamedRangeList.parse (renderList l ++ [Tok.comma]) = (Except.ok { list := l }, []) ∧
    NamedRangeList.parse (renderList l) = (Except.ok { list := l }, []) :=
  ⟨NamedRangeList.parse_renderList_comma l hne hv, NamedRangeList.parse_renderList l hv⟩

/-- Claim C6, counterexample to the unamended claim: the grammar
`range_list := (range_token (comma range_token)* comma?)?` derives the
empty list, whose rendering is the empty token sequence; it parses to
the empty range list, but with a trailing comma appended the parse
fails, so `parse(list ++ ",") ≠ parse(list)` there. -/
theorem c6_empty_list_counterexample :
    NamedRangeList.parse ([] : List Tok) = (Except.ok { list := [] }, []) ∧
    (NamedRangeList.parse (([] : List Tok) ++ [Tok.comma])).1 = Except.error PErr.synErr :=
  ⟨rfl, rfl⟩

/-- Claim C6 witness: the test list used by the crate, `Foo: 1..10, Bar: 11`,
with and without a trailing comma. -/
theorem c6_trailing_comma_witness :
    NamedRangeList.parse (renderList [{ name := "Foo", start := 1, end? := some 10 },
        { name := "Bar", start := 11, end? := none }] ++ [Tok.comma]) =
      (Except.ok { list := [{ name := "Foo", start := 1, end? := some 10 },
        { name := "Bar", start := 11, end? := none }] }, []) ∧
    NamedRangeList.parse (renderList [{ name := "Foo", start := 1, end? := some 10 },
        { name := "Bar", start := 11, end? := none }]) =
      (Except.ok { list := [{ name := "Foo", start := 1, end? := some 10 },
        { name := "Bar", start := 11, end? := none }] }, []) :=
  c6_trailing_comma _ (List.cons_ne_nil _ _) (by decide)

/-- Claim C7: an annotation-parse failure is never propagated: when
`Attribute::parse_outer` fails, `RangedEnum::parse` proceeds with zero
attributes from wherever the failed attribute parse left the cursor,
parsing the type name and the braced range list as usual. -/
theorem c7_annotation_failure_swallowed (toks : List Tok) (e : PErr)
    (h : (attrParseOuter toks).1 = Except.error e) :
    RangedEnum.parse toks = RangedEnum.parseAfterAttrs [] (attrParseOuter toks).2 := by
  rcases hA : attrParseOuter toks with ⟨res, rem⟩
  rw [hA] at h
  obtain rfl : res = Except.error e := h
  rw [RangedEnum.parse, hA]

/-- Claim C7 witness: on `# X { }` the attribute parse fails (the `#`
is not followed by a bracket group), yet the whole declaration still
parses, with zero annotations, to the enum `X` with no variants. -/
theorem c7_annotation_failure_swallowed_witness :
    (attrParseOuter [Tok.pound, Tok.ident "X", Tok.braceGroup []]).1 =
      Except.error PErr.synErr ∧
    RangedEnum.parse [Tok.pound, Tok.ident "X", Tok.braceGroup []] =
      RangedEnum.parseAfterAttrs []
        (attrParseOuter [Tok.pound, Tok.ident "X", Tok.braceGroup []]).2 ∧
    RangedEnum.parse [Tok.pound, Tok.ident "X", Tok.braceGroup []] =
      (Except.ok { attributes := [], name := "X", variants := { list := [] } }, []) :=
  ⟨rfl, c7_annotation_failure_swallowed _ PErr.synErr rfl, rfl⟩


/-- Claim C9: the reflection helper rejects exactly the reserved name
`OhNo` with a build failure, and for any other name emits an impl whose
method returns exactly that name as a string constant. -/
theorem c9_reserved_name (s : String) (hs : s ≠ "OhNo") :
    derive_describe_struct "OhNo" = Except.error "That name is not allowed" ∧
    derive_describe_struct s = Except.ok { targetName := s, struct_name := s } := by
  refine ⟨rfl, ?_⟩
  simp [derive_describe_struct, hs]

/-- Claim C9 witness: the crate test derives `DescribeStruct` for
`Foo` and gets `"Foo"` back. -/
theorem c9_reserved_name_witness :
    derive_describe_struct "OhNo" = Except.error "That name is not allowed" ∧
    derive_describe_struct "Foo" =
      Except.ok { targetName := "Foo", struct_name := "Foo" } :=
  c9_reserved_name "Foo" (by decide)

/-- Claim C10: the DSL integer domain is exactly `u64`: a literal not
below `2^64` — whether in `start` or in `end` position — makes the
range-token parse fail rather than wrap, truncate, or accept, while a
literal below `2^64` is accepted. -/
theorem c10_u64_domain (name : String) (K M : Nat) :
    (2 ^ 64 ≤ K →
      (NamedRange.parse [Tok.ident name, Tok.colon, Tok.intLit K]).1 =
        Except.error PErr.synErr) ∧
    (K < 2 ^ 64 → 2 ^ 64 ≤ M →
      (NamedRange.parse [Tok.ident name, Tok.colon, Tok.intLit K, Tok.dotdot,
        Tok.intLit M]).1 = Except.error PErr.synErr) ∧
    (K < 2 ^ 64 →
      (NamedRange.parse [Tok.ident name, Tok.colon, Tok.intLit K]).1 =
        Except.ok { name := name, start := K, end? := none }) := by
  refine ⟨fun hK => ?_, fun hK hM => ?_, fun hK => ?_⟩
  · simp only [NamedRange.parse, parseIdentTok, parseColonTok, parseLitIntTok, base10ParseU64]
    rw [if_neg (by omega)]
  · simp only [NamedRange.parse, parseIdentTok, parseColonTok, parseLitIntTok, base10ParseU64]
    rw [if_pos (by omega), if_neg (by omega)]
  · simp only [NamedRange.parse, parseIdentTok, parseColonTok, parseLitIntTok, base10ParseU64]
    rw [if_pos (by omega)]

/-- Claim C10 witness: `2^64` is rejected in either position;
`7` is accepted. -/
theorem c10_u64_domain_witness :
    (NamedRange.parse [Tok.ident "Foo", Tok.colon, Tok.intLit (2 ^ 64)]).1 =
      Except.error PErr.synErr ∧
    (NamedRange.parse [Tok.ident "Foo", Tok.colon, Tok.intLit 1, Tok.dotdot,
      Tok.intLit (2 ^ 64)]).1 = Except.error PErr.synErr ∧
    (NamedRange.parse [Tok.ident "Foo", Tok.colon, Tok.intLit 7]).1 =
      Except.ok { name := "Foo", start := 7, end? := none } :=
  ⟨(c10_u64_domain "Foo" (2 ^ 64) 0).1 (by omega),
   (c10_u64_domain "Foo" 1 (2 ^ 64)).2.1 (by omega) (by omega),
   (c10_u64_domain "Foo" 7 0).2.2 (by omega)⟩

/-- Claim C8: parsing a rendered declaration and emitting it produces
exactly one enum variant per range token, named verbatim, in input
order, with all captured annotations emitted verbatim and unmodified
above the enum. -/
theorem c8_enum_emission (attrs : List (List Tok)) (name : String) (l : List NamedRange)
    (hv : validRanges l = true) :
    RangedEnum.parse (renderDecl attrs name l) =
      (Except.ok (RangedEnum.mk attrs name (NamedRangeList.mk l)), []) ∧
    RangedEnum.to_tokens (RangedEnum.mk attrs name (NamedRangeList.mk l)) =
      GenOutput.mk attrs name (l.map (fun r => r.name)) (bodyToks l) := by
  constructor
  · rw [renderDecl, RangedEnum.parse, attrParseOuter_render]
    show RangedEnum.parseAfterAttrs attrs [Tok.ident name, Tok.braceGroup (renderList l)] = _
    rw [RangedEnum.parseAfterAttrs]
    show (match NamedRangeList.parse (renderList l) with
          | (Except.error e, _) => (Except.error e, ([] : List Tok))
          | (Except.ok variants, _) =>
            (Except.ok (RangedEnum.mk attrs name variants), ([] : List Tok))) = _
    rw [NamedRangeList.parse_renderList l hv]
  · rfl

/-- Claim C8 witness: a two-range declaration with one annotation. -/
theorem c8_enum_emission_witness :
    RangedEnum.parse (renderDecl [[Tok.ident "derive"]] "LogTen"
        [NamedRange.mk "Zero" 0 none, NamedRange.mk "Ones" 1 (some 10)]) =
      (Except.ok (RangedEnum.mk [[Tok.ident "derive"]] "LogTen"
        (NamedRangeList.mk [NamedRange.mk "Zero" 0 none, NamedRange.mk "Ones" 1 (some 10)])),
        []) ∧
    RangedEnum.to_tokens (RangedEnum.mk [[Tok.ident "derive"]] "LogTen"
        (NamedRangeList.mk [NamedRange.mk "Zero" 0 none, NamedRange.mk "Ones" 1 (some 10)])) =
      GenOutput.mk [[Tok.ident "derive"]] "LogTen" ["Zero", "Ones"]
        (bodyToks [NamedRange.mk "Zero" 0 none, NamedRange.mk "Ones" 1 (some 10)]) :=
  c8_enum_emission [[Tok.ident "derive"]] "LogTen"
    [NamedRange.mk "Zero" 0 none, NamedRange.mk "Ones" 1 (some 10)] (by decide)
